import Mathlib

/-!
Verification of the payment-schedule / overdue / analytics core of the
client-sales tracker (src/server/storage.ts, the schedule regenerator in the
payment-schedule view, and the date formatters).

Modelling conventions for the JavaScript/TypeScript source:
* JS strings are embedded as `List Char`; `"lit".data` injects a Lean string
  literal.  `String.prototype.split('.')`, `includes`, `padStart` and
  `parseInt` are modelled by the explicit list functions below.
* A JS `Date` is a calendar day: a valid date is a normalized
  `JSDate` (proleptic Gregorian year/month/day, month 1-12); the JS
  *Invalid Date* value is `none` in `Option JSDate`.  Local time is modelled
  as a fixed-offset clock (no daylight-saving jumps, as in the server's
  Russian locale), so two local midnights are always a whole number of days
  apart and `Math.ceil((a - b) / 86400000)` on their time values is exactly
  the difference of their day numbers.
* JS numbers used as amounts are embedded as `ℚ` (exact arithmetic); the JS
  `NaN` amount is not modelled.  `undefined` is `Option.none`; for fields
  that distinguish `undefined` from `null` the embedding uses a nested
  `Option`, outer `none` = absent/undefined, `some none` = null.
-/

/-- JS whitespace recognized by `parseInt` when it trims its argument
(space, tab, line feed, carriage return, vertical tab, form feed). -/
def isJsSpace (c : Char) : Bool :=
  c = ' ' ∨ c = '\t' ∨ c = '\n' ∨ c = '\r' ∨ c = '\x0b' ∨ c = '\x0c'

/-- Decimal digit test, `'0' ≤ c ≤ '9'`. -/
def isDigitChar (c : Char) : Bool :=
  '0' ≤ c ∧ c ≤ '9'

/-- Numeric value of a decimal digit character. -/
def digitVal (c : Char) : Nat :=
  c.toNat - 48

/-- Hexadecimal digit test. -/
def isHexDigitChar (c : Char) : Bool :=
  isDigitChar c ∨ ('a' ≤ c ∧ c ≤ 'f') ∨ ('A' ≤ c ∧ c ≤ 'F')

/-- Numeric value of a hexadecimal digit character. -/
def hexVal (c : Char) : Nat :=
  if isDigitChar c then c.toNat - 48
  else if 'a' ≤ c ∧ c ≤ 'f' then c.toNat - 87
  else c.toNat - 55

/-- Model of JS `String.prototype.split(sep)` for a one-character separator:
always returns at least one (possibly empty) part; `"".split(c) = [""]`. -/
def splitOnChar (sep : Char) : List Char → List (List Char)
  | [] => [[]]
  | c :: rest =>
    if c = sep then [] :: splitOnChar sep rest
    else
      match splitOnChar sep rest with
      | [] => [[c]]
      | part :: parts => (c :: part) :: parts

/-- Accumulator-style evaluation of a most-significant-digit-first decimal
digit list, as JS `parseInt` does after isolating the digit run. -/
def parseDigitsAcc (acc : Nat) : List Char → Nat
  | [] => acc
  | c :: rest => parseDigitsAcc (acc * 10 + digitVal c) rest

/-- Accumulator-style evaluation of a hexadecimal digit list. -/
def parseHexAcc (acc : Nat) : List Char → Nat
  | [] => acc
  | c :: rest => parseHexAcc (acc * 16 + hexVal c) rest

/-- The digit run taken by `parseInt` after the optional sign: a leading
`0x`/`0X` switches to hexadecimal, otherwise the longest decimal digit run is
taken; an empty run is `NaN` (`none`). -/
def jsParseIntCore (s : List Char) : Option Nat :=
  match s with
  | c0 :: c1 :: rest =>
    if c0 = '0' ∧ (c1 = 'x' ∨ c1 = 'X') then
      let ds := rest.takeWhile isHexDigitChar
      if ds = [] then none else some (parseHexAcc 0 ds)
    else
      let ds := (c0 :: c1 :: rest).takeWhile isDigitChar
      if ds = [] then none else some (parseDigitsAcc 0 ds)
  | _ =>
    let ds := s.takeWhile isDigitChar
    if ds = [] then none else some (parseDigitsAcc 0 ds)

/-- Model of JS `parseInt(s)` (radix argument omitted, as in the source):
trim leading whitespace, read an optional sign, then the digit run;
`none` models the `NaN` result. -/
def jsParseInt (s : List Char) : Option Int :=
  match s.dropWhile isJsSpace with
  | [] => none
  | c :: rest =>
    if c = '-' then (jsParseIntCore rest).map (fun n => -(n : Int))
    else if c = '+' then (jsParseIntCore rest).map (fun n => (n : Int))
    else (jsParseIntCore (c :: rest)).map (fun n => (n : Int))

/-- Decimal digit character of a value below ten. -/
def digitChar : Nat → Char
  | 0 => '0'
  | 1 => '1'
  | 2 => '2'
  | 3 => '3'
  | 4 => '4'
  | 5 => '5'
  | 6 => '6'
  | 7 => '7'
  | 8 => '8'
  | 9 => '9'
  | _ => '*'

/-- Fuel-driven most-significant-first decimal digits of `n` (empty for 0);
any fuel of at least `n` yields the full digit string. -/
def natDigitsAux : Nat → Nat → List Char
  | 0, _ => []
  | fuel + 1, n =>
    if n = 0 then []
    else natDigitsAux fuel (n / 10) ++ [digitChar (n % 10)]

/-- Decimal representation of a natural number, as JS number-to-string
produces for integral values. -/
def natToChars (n : Nat) : List Char :=
  if n = 0 then ['0'] else natDigitsAux n n

/-- Decimal representation of an integer. -/
def intToChars (i : Int) : List Char :=
  if i < 0 then '-' :: natToChars i.natAbs else natToChars i.natAbs

/-- Model of JS `String(x).padStart(2, '0')` applied to a digit string. -/
def padStart2 (l : List Char) : List Char :=
  List.replicate (2 - l.length) '0' ++ l

/-- Proleptic Gregorian leap-year rule, as implemented by the JS `Date`
calendar. -/
def isLeapYear (y : Int) : Bool :=
  (y % 4 = 0 ∧ y % 100 ≠ 0) ∨ y % 400 = 0

/-- Length of month `m` (1-12) of year `y` in the JS `Date` calendar. -/
def daysInMonth (y m : Int) : Int :=
  if m = 4 ∨ m = 6 ∨ m = 9 ∨ m = 11 then 30
  else if m = 2 then (if isLeapYear y then 29 else 28)
  else 31

/-- Days from the epoch 1970-01-01 to civil date `(y, m, d)` (month 1-12,
`d` may be any integer offset into the month), the day-count underlying the
JS `Date.prototype.getTime` value of a local midnight. -/
def daysFromCivil (y m d : Int) : Int :=
  let yAdj := if m ≤ 2 then y - 1 else y
  let era := yAdj / 400
  let yoe := yAdj - era * 400
  let mp := (m + 9) % 12
  let doy := (153 * mp + 2) / 5 + d - 1
  let doe := yoe * 365 + yoe / 4 - yoe / 100 + doy
  era * 146097 + doe - 719468

/-- A valid JS `Date` value at local midnight: a normalized proleptic
Gregorian calendar day.  `month` is 1-based (i.e. `getMonth() + 1`),
`day` is `getDate()`, `year` is `getFullYear()`. -/
structure JSDate where
  year : Int
  month : Int
  day : Int
deriving Repr, DecidableEq

/-- The `getTime()` value of the date's local midnight, in days. -/
def JSDate.epochDay (dt : JSDate) : Int :=
  daysFromCivil dt.year dt.month dt.day

/-- Day-of-month normalization used by the JS `MakeDay` operation: walk the
out-of-range day offset into adjacent months.  The fuel is an upper bound on
the number of month steps; callers pass enough fuel for the walk to finish. -/
def normDayAux : Nat → Int → Int → Int → JSDate
  | 0, y, m, d => ⟨y, m, d⟩
  | fuel + 1, y, m, d =>
    if d < 1 then
      let y1 := if m = 1 then y - 1 else y
      let m1 := if m = 1 then 12 else m - 1
      normDayAux fuel y1 m1 (d + daysInMonth y1 m1)
    else if daysInMonth y m < d then
      let y1 := if m = 12 then y + 1 else y
      let m1 := if m = 12 then 1 else m + 1
      normDayAux fuel y1 m1 (d - daysInMonth y m)
    else ⟨y, m, d⟩

/-- JS `MakeDay(y, m0, d)` followed by `TimeClip`: `m0` is the 0-based month
(any integer, folded into the year by floor division), `d` any integer
day-of-month; a result farther than 100 000 000 days from the epoch is the
*Invalid Date* (`none`).  No 1900-year remapping happens here (that remap
belongs to the `Date(y, m, d)` constructor only). -/
def makeDay (y m0 d : Int) : Option JSDate :=
  let ym := y + m0 / 12
  let mm := m0 % 12 + 1
  let dt := normDayAux (d.natAbs + 13) ym mm d
  if dt.epochDay < -100000000 ∨ 100000000 < dt.epochDay then none else some dt

/-- Model of the JS constructor `new Date(y, m, d)` (arguments may be `NaN`,
modelled as `none`): any `NaN` argument yields the Invalid Date; a year
argument between 0 and 99 is remapped to 1900-1999; then `MakeDay`
normalization. -/
def jsDateYMD (y m d : Option Int) : Option JSDate :=
  match y, m, d with
  | some y, some m, some d =>
    let y1 := if 0 ≤ y ∧ y ≤ 99 then y + 1900 else y
    makeDay y1 m d
  | _, _, _ => none

/-- Model of the JS constructor `new Date(s)` on the strings this system
feeds it (dash-containing date strings): the ECMA Date Time String Format
date-only forms `YYYY-MM-DD` and `YYYY-MM` with in-range components parse to
that calendar day; every other dash-containing string is the Invalid Date.
(Engine-specific fallback parsing of non-ISO strings is not modelled; no
claim depends on it.) -/
def jsDateFromString (s : List Char) : Option JSDate :=
  match splitOnChar '-' s with
  | [ys, ms, ds] =>
    if ys.length = 4 ∧ ys.all isDigitChar ∧ ms.length = 2 ∧ ms.all isDigitChar
        ∧ ds.length = 2 ∧ ds.all isDigitChar then
      let y : Int := parseDigitsAcc 0 ys
      let m : Int := parseDigitsAcc 0 ms
      let d : Int := parseDigitsAcc 0 ds
      if 1 ≤ m ∧ m ≤ 12 ∧ 1 ≤ d ∧ d ≤ daysInMonth y m then some ⟨y, m, d⟩
      else none
    else none
  | [ys, ms] =>
    if ys.length = 4 ∧ ys.all isDigitChar ∧ ms.length = 2 ∧ ms.all isDigitChar then
      let y : Int := parseDigitsAcc 0 ys
      let m : Int := parseDigitsAcc 0 ms
      if 1 ≤ m ∧ m ≤ 12 then some ⟨y, m, 1⟩ else none
    else none
  | _ => none

/-- Embedding of `MySQLStorage.parseRussianDate` (src/server/storage.ts):
missing or empty input is null (`none`); a dash-containing string goes to
`new Date(string)`; otherwise a string splitting on `'.'` into exactly three
parts is read as `new Date(parseInt(year), parseInt(month) - 1,
parseInt(day))`; anything else is null.  The result layers are:
outer `none` = null, `some none` = Invalid Date, `some (some d)` = valid. -/
def parseRussianDate (dateStr : Option (List Char)) : Option (Option JSDate) :=
  match dateStr with
  | none => none
  | some s =>
    if s = [] then none
    else if s.contains '-' then some (jsDateFromString s)
    else
      match splitOnChar '.' s with
      | [p0, p1, p2] =>
        some (jsDateYMD (jsParseInt p2) ((jsParseInt p1).map (fun x => x - 1)) (jsParseInt p0))
      | _ => none

/-- The `DD.MM.YYYY` formatter shared by `convertDateToRussianFormat` and the
tail of `addMonthsToDate`: day and month zero-padded to two characters with
`padStart(2, '0')`, year unpadded; on the Invalid Date every `get*` is `NaN`
and the template literal degenerates to `"NaN.NaN.NaN"`. -/
def formatDayMonthYear (d : Option JSDate) : List Char :=
  match d with
  | none => "NaN.NaN.NaN".data
  | some dt =>
    padStart2 (intToChars dt.day) ++ '.' :: (padStart2 (intToChars dt.month) ++ '.' :: intToChars dt.year)

/-- Embedding of `convertDateToRussianFormat` (payment-schedule editor):
`new Date(isoDate)` then zero-padded `DD.MM.YYYY` formatting. -/
def convertDateToRussianFormat (isoDate : List Char) : List Char :=
  formatDayMonthYear (jsDateFromString isoDate)

/-- Embedding of `addMonthsToDate` inside `handleRegenerateSchedule`
(payment-schedule view): parse the date from `DD.MM.YYYY` (or hand anything
else to `new Date(string)`), add months with `setMonth(getMonth() + k)`
(month arithmetic with day-of-month rollover, no 1900 remap), format back. -/
def addMonthsToDate (dateStr : List Char) (monthsToAdd : Int) : List Char :=
  let d : Option JSDate :=
    if dateStr.contains '.' then
      match splitOnChar '.' dateStr with
      | [p0, p1, p2] =>
        jsDateYMD (jsParseInt p2) ((jsParseInt p1).map (fun x => x - 1)) (jsParseInt p0)
      | _ => jsDateFromString dateStr
    else jsDateFromString dateStr
  let d2 : Option JSDate :=
    match d with
    | none => none
    | some dt => makeDay dt.year (dt.month - 1 + monthsToAdd) dt.day
  formatDayMonthYear d2

/-- Embedding of the `PaymentScheduleEntry` shape (shared/schema.ts).
`payment_number` is required by the TypeScript interface; the date/string
fields are `Option` because legacy records omit them and the consuming code
guards every access; amounts are exact rationals. -/
structure PaymentScheduleEntry where
  payment_number : Int
  planned_date : Option (List Char)
  planned_amount : Option ℚ
  status : Option (List Char)
  actual_date : Option (List Char)
  actual_amount : Option ℚ
  difference : Option ℚ
  discrepancy : Option (List Char)
  date : Option (List Char)
  amount : Option ℚ
  description : Option (List Char)
deriving Repr, DecidableEq

/-- The loop body of `MySQLStorage.calculateOverdueDays`: scan the schedule
in order; skip entries whose `status` is `'paid'`; for an unpaid entry whose
planned date parses to a valid date strictly before today, return
`Math.ceil((today - plannedDate) / 86400000)` — under the fixed-offset local
clock exactly the difference of the two day numbers; otherwise (null or
Invalid parse, or not yet due) keep scanning. -/
def overdueScan : List PaymentScheduleEntry → JSDate → Int
  | [], _ => 0
  | p :: rest, today =>
    if p.status = some ("paid".data) then overdueScan rest today
    else
      match parseRussianDate p.planned_date with
      | some (some pd) =>
        if pd.epochDay < today.epochDay then today.epochDay - pd.epochDay
        else overdueScan rest today
      | _ => overdueScan rest today

/-- Embedding of `MySQLStorage.calculateOverdueDays` (src/server/storage.ts):
a missing or empty schedule yields 0, otherwise the scan above.  `today`
(`new Date()` truncated to local midnight) is passed explicitly. -/
def calculateOverdueDays (paymentSchedule : Option (List PaymentScheduleEntry)) (today : JSDate) : Int :=
  match paymentSchedule with
  | none => 0
  | some sched => if sched = [] then 0 else overdueScan sched today

/-- JS `x || null` on an optional number: `undefined`, `null` and `0` all
collapse to null. -/
def orNullInt (v : Option Int) : Option Int :=
  match v with
  | some n => if n = 0 then none else some n
  | none => none

/-- JS `x || null` (and `if (x)` presence tests) on an optional string:
`undefined`, `null` and the empty string all collapse to null/absent. -/
def orNullStr (v : Option (List Char)) : Option (List Char) :=
  match v with
  | some s => if s = [] then none else some s
  | none => none

/-- JS `x || null` on an optional rational amount. -/
def orNullQ (v : Option ℚ) : Option ℚ :=
  match v with
  | some q => if q = 0 then none else some q
  | none => none

/-- The `getAnalytics` loop value
`const actualDate = p.actual_date ? this.parseRussianDate(p.actual_date) : null`:
an absent or empty (falsy) `actual_date` short-circuits to null. -/
def jsActualDate (p : PaymentScheduleEntry) : Option (Option JSDate) :=
  match p.actual_date with
  | none => none
  | some s => if s = [] then none else parseRussianDate (some s)

/-- The planned half of one `getAnalytics` entry iteration, restricted to
the running `(totalPlanned, totalActual)` pair: a `planned_date` parsing to
a valid date in the target (month, year) adds `planned_amount || 0` to the
first component.  An Invalid-Date parse has `NaN` month and year, which
match no target, so it falls into the catch-all and contributes nothing. -/
def plannedStep (tm ty : Int) (acc : ℚ × ℚ) (p : PaymentScheduleEntry) : ℚ × ℚ :=
  match parseRussianDate p.planned_date with
  | some (some pd) =>
    if pd.month = tm ∧ pd.year = ty then (acc.1 + (p.planned_amount.getD 0), acc.2) else acc
  | _ => acc

/-- The actual half of one `getAnalytics` entry iteration: a truthy
`actual_date` parsing to a valid date in the target (month, year) on an
entry with status 'paid' adds `actual_amount || 0` to the second
component. -/
def actualStep (tm ty : Int) (acc : ℚ × ℚ) (p : PaymentScheduleEntry) : ℚ × ℚ :=
  match jsActualDate p with
  | some (some ad) =>
    if p.status = some ("paid".data) ∧ ad.month = tm ∧ ad.year = ty then
      (acc.1, acc.2 + (p.actual_amount.getD 0))
    else acc
  | _ => acc

/-- One iteration of the `getAnalytics` entry loop on the running
`(totalPlanned, totalActual)` pair: the planned accumulation followed by
the actual accumulation. -/
def analyticsEntryStep (tm ty : Int) (acc : ℚ × ℚ) (p : PaymentScheduleEntry) : ℚ × ℚ :=
  actualStep tm ty (plannedStep tm ty acc p) p

/-- The `sales.forEach` fold of `getAnalytics` restricted to the two global
totals: a sale whose `payment_schedule` is null is skipped (an empty array is
truthy and contributes nothing).  The per-branch and per-month bookkeeping of
`getAnalytics` does not feed these totals and is not modelled. -/
def analyticsTotals (sales : List (Option (List PaymentScheduleEntry))) (tm ty : Int) : ℚ × ℚ :=
  sales.foldl
    (fun acc osched =>
      match osched with
      | none => acc
      | some sched => sched.foldl (analyticsEntryStep tm ty) acc)
    (0, 0)

/-- Whether an entry's `planned_date` parses to a valid date in the target
(month, year) — the condition under which `getAnalytics` counts its planned
amount.  Stated from the spec: "all schedule entries across all sales whose
parsed planned_date falls in that (month, year)". -/
def plannedInTarget (tm ty : Int) (p : PaymentScheduleEntry) : Bool :=
  match parseRussianDate p.planned_date with
  | some (some pd) => pd.month == tm && pd.year == ty
  | _ => false

/-- Modelled from the spec: "`totalPlanned` for a target month equals the sum
of `planned_amount` over all schedule entries across all sales whose parsed
`planned_date` falls in that (month, year)" — the flat filtered sum this
claim compares the implementation against. -/
def totalPlannedSpec (sales : List (Option (List PaymentScheduleEntry))) (tm ty : Int) : ℚ :=
  ((((sales.filterMap id).flatten).filter (plannedInTarget tm ty)).map
    (fun p => p.planned_amount.getD 0)).sum

/-- Embedding of `PaymentHistoryEntry` (shared/schema.ts). -/
structure PaymentHistoryEntry where
  paymentIndex : Int
  paidDate : List Char
  paidAmount : ℚ
  note : Option (List Char)
deriving Repr, DecidableEq

/-- The sale status enumeration (shared/schema.ts). -/
inductive SaleStatus where
  | active
  | overdue
  | underpaid
  | paid_off
  | completed
deriving Repr, DecidableEq

/-- The columns of one `client_sales_tracker` row that `updateSale` can
touch.  The JSON text columns are modelled by their parsed values
(`JSON.stringify` on write and `JSON.parse` on read are mutually inverse on
these shapes); `overdue_days` is the derived column recomputed alongside
`payment_schedule`. -/
structure SaleRow where
  sale_id : Int
  amocrm_lead_id : Int
  yclients_client_id : Option Int
  yclients_company_id : Option Int
  client_phone : List Char
  client_name : Option (List Char)
  master_name : Option (List Char)
  subscription_title : Option (List Char)
  purchase_date : List Char
  total_cost : ℚ
  is_installment : Bool
  payment_schedule : Option (List PaymentScheduleEntry)
  payment_history : Option (List PaymentHistoryEntry)
  total_payments : Option Int
  payments_made_count : Option Int
  next_payment_date : Option (List Char)
  next_payment_amount : Option ℚ
  is_fully_paid : Bool
  status : SaleStatus
  is_frozen : Bool
  is_refund : Bool
  comments : Option (List Char)
  pdf_url : Option (List Char)
  booked : Bool
  date_booked : Option (List Char)
  summa_vozvrata : Option ℚ
  overdue_days : Int
deriving Repr, DecidableEq

/-- Embedding of the `UpdateClientSale` payload (`updateClientSaleSchema`,
shared/schema.ts — every insert field made optional).  Outer `none` means the
field is absent from the payload (`undefined`, so `updateSale` skips it);
for nullable fields the inner `Option` carries the null. -/
structure UpdateClientSale where
  sale_id : Option Int
  amocrm_lead_id : Option Int
  yclients_client_id : Option (Option Int)
  yclients_company_id : Option (Option Int)
  client_phone : Option (List Char)
  client_name : Option (Option (List Char))
  master_name : Option (Option (List Char))
  subscription_title : Option (Option (List Char))
  purchase_date : Option (List Char)
  total_cost : Option ℚ
  is_installment : Option Bool
  payment_schedule : Option (Option (List PaymentScheduleEntry))
  payment_history : Option (Option (List PaymentHistoryEntry))
  total_payments : Option (Option Int)
  payments_made_count : Option (Option Int)
  next_payment_date : Option (Option (List Char))
  next_payment_amount : Option (Option ℚ)
  is_fully_paid : Option Bool
  status : Option SaleStatus
  is_frozen : Option Bool
  is_refund : Option Bool
  comments : Option (Option (List Char))
  pdf_url : Option (Option (List Char))
  booked : Option Bool
  date_booked : Option (Option (List Char))
  summa_vozvrata : Option (Option ℚ)
deriving Repr, DecidableEq

/-- The payload with every field absent: `updateSale` builds no SET clause
for it. -/
def emptyUpdate : UpdateClientSale :=
  ⟨none, none, none, none, none, none, none, none, none, none, none, none, none,
   none, none, none, none, none, none, none, none, none, none, none, none, none⟩

/-- One `if (sale.x !== undefined) { updates.push(...); params.push(...) }`
step of `updateSale`, acting on the pending row state and the
clauses-were-added flag. -/
def applyField {α : Type} (v : Option α) (set : SaleRow → α → SaleRow) (s : SaleRow × Bool) : SaleRow × Bool :=
  match v with
  | some x => (set s.1 x, true)
  | none => s

/-- The `updateSale` field chain up to (and excluding) `payment_schedule`,
in source order, with the `|| null` falsy-to-null coercions the source
applies to its parameters. -/
def updatePre (u : UpdateClientSale) (s : SaleRow × Bool) : SaleRow × Bool :=
  applyField u.is_installment (fun r v => { r with is_installment := v })
    (applyField u.total_cost (fun r v => { r with total_cost := v })
      (applyField u.purchase_date (fun r v => { r with purchase_date := v })
        (applyField u.subscription_title (fun r v => { r with subscription_title := orNullStr v })
          (applyField u.master_name (fun r v => { r with master_name := orNullStr v })
            (applyField u.client_name (fun r v => { r with client_name := orNullStr v })
              (applyField u.client_phone (fun r v => { r with client_phone := v })
                (applyField u.yclients_company_id (fun r v => { r with yclients_company_id := orNullInt v })
                  (applyField u.yclients_client_id (fun r v => { r with yclients_client_id := orNullInt v })
                    (applyField u.amocrm_lead_id (fun r v => { r with amocrm_lead_id := v })
                      (applyField u.sale_id (fun r v => { r with sale_id := v }) s))))))))))

/-- The `payment_schedule` step of `updateSale`: when the field is present
(possibly null) it is stored, and `overdue_days` is recomputed from it by
`calculateOverdueDays` in the same statement. -/
def updateSched (u : UpdateClientSale) (today : JSDate) (s : SaleRow × Bool) : SaleRow × Bool :=
  applyField u.payment_schedule
    (fun r v => { r with payment_schedule := v, overdue_days := calculateOverdueDays v today }) s

/-- The `updateSale` field chain after `payment_schedule`, in source order. -/
def updatePost (u : UpdateClientSale) (s : SaleRow × Bool) : SaleRow × Bool :=
  applyField u.summa_vozvrata (fun r v => { r with summa_vozvrata := orNullQ v })
    (applyField u.date_booked (fun r v => { r with date_booked := orNullStr v })
      (applyField u.booked (fun r v => { r with booked := v })
        (applyField u.pdf_url (fun r v => { r with pdf_url := orNullStr v })
          (applyField u.comments (fun r v => { r with comments := orNullStr v })
            (applyField u.is_refund (fun r v => { r with is_refund := v })
              (applyField u.is_frozen (fun r v => { r with is_frozen := v })
                (applyField u.status (fun r v => { r with status := v })
                  (applyField u.is_fully_paid (fun r v => { r with is_fully_paid := v })
                    (applyField u.next_payment_amount (fun r v => { r with next_payment_amount := orNullQ v })
                      (applyField u.next_payment_date (fun r v => { r with next_payment_date := orNullStr v })
                        (applyField u.payments_made_count (fun r v => { r with payments_made_count := orNullInt v })
                          (applyField u.total_payments (fun r v => { r with total_payments := orNullInt v })
                            (applyField u.payment_history (fun r v => { r with payment_history := v }) s)))))))))))))

/-- Embedding of `MySQLStorage.updateSale` (src/server/storage.ts) as its net
effect on the stored row: each present payload field overwrites its column
(with the source's falsy-to-null coercions); a present `payment_schedule`
also recomputes `overdue_days`.  The boolean is whether any SET clause was
built — when it is `false` the source skips the UPDATE entirely and returns
the freshly fetched, unchanged record. -/
def updateSaleRow (row : SaleRow) (u : UpdateClientSale) (today : JSDate) : SaleRow × Bool :=
  updatePost u (updateSched u today (updatePre u (row, false)))

/-- The per-entry map of `handleRegenerateSchedule` (payment-schedule view):
recompute `planned_date` as purchase date plus `payment_number - 1` months
and rebuild the entry, copying `planned_amount` and the
`!== undefined`-guarded numeric fields unconditionally, and the truthiness-
guarded string fields only when present and non-empty. -/
def regenerateEntry (purchaseDateStr : List Char) (payment : PaymentScheduleEntry) : PaymentScheduleEntry :=
  let monthsFromPurchase := payment.payment_number - 1
  let newPlannedDate := addMonthsToDate purchaseDateStr monthsFromPurchase
  { payment_number := payment.payment_number
    planned_date := some newPlannedDate
    planned_amount := payment.planned_amount
    status := orNullStr payment.status
    actual_date := orNullStr payment.actual_date
    actual_amount := payment.actual_amount
    difference := payment.difference
    discrepancy := orNullStr payment.discrepancy
    date := orNullStr payment.date
    amount := payment.amount
    description := orNullStr payment.description }

/-- Embedding of `handleRegenerateSchedule`: an empty (or absent, defaulted
to empty) schedule is reported to the user and nothing is produced (`none`);
otherwise every entry is rebuilt from the sale's formatted purchase date. -/
def handleRegenerateSchedule (purchaseDateStr : List Char) (sched : List PaymentScheduleEntry) : Option (List PaymentScheduleEntry) :=
  if sched = [] then none
  else some (sched.map (regenerateEntry purchaseDateStr))

/-- A scanned entry is skipped exactly when it is paid, or its planned date
does not parse to a valid date strictly before today. -/
def scanSkips (today : JSDate) (p : PaymentScheduleEntry) : Prop :=
  p.status = some ("paid".data) ∨
    ∀ q : JSDate, parseRussianDate p.planned_date = some (some q) → ¬ q.epochDay < today.epochDay

theorem overdueScan_skip_prefix (today : JSDate) (pre rest : List PaymentScheduleEntry)
    (hpre : ∀ p ∈ pre, scanSkips today p) :
    overdueScan (pre ++ rest) today = overdueScan rest today := by
  induction pre with
  | nil => rfl
  | cons p t ih =>
    have hp := hpre p (List.mem_cons_self p t)
    have ht : ∀ q ∈ t, scanSkips today q := fun q hq => hpre q (List.mem_cons_of_mem p hq)
    by_cases hpaid : p.status = some ("paid".data)
    · simp only [List.cons_append, overdueScan, if_pos hpaid]
      exact ih ht
    · rcases hp with hp | hp
      · exact absurd hp hpaid
      · simp only [List.cons_append, overdueScan, if_neg hpaid]
        cases hres : parseRussianDate p.planned_date with
        | none => simpa [hres] using ih ht
        | some o =>
          cases o with
          | none => simpa [hres] using ih ht
          | some q =>
            have := hp q hres
            simpa [hres, this] using ih ht

theorem overdueScan_all_paid (today : JSDate) (l : List PaymentScheduleEntry)
    (h : ∀ p ∈ l, p.status = some ("paid".data)) :
    overdueScan l today = 0 := by
  induction l with
  | nil => rfl
  | cons p t ih =>
    simp only [overdueScan, if_pos (h p (List.mem_cons_self p t))]
    exact ih fun q hq => h q (List.mem_cons_of_mem p hq)

/-- C9: the Overdue Calculator returns 0 for an absent schedule, an empty
schedule, and any schedule in which every entry has status 'paid'. -/
theorem overdue_zero_when_paid_or_absent (sched : Option (List PaymentScheduleEntry)) (today : JSDate)
    (h : sched = none ∨ ∃ l, sched = some l ∧ ∀ p ∈ l, p.status = some ("paid".data)) :
    calculateOverdueDays sched today = 0 := by
  rcases h with h | ⟨l, rfl, hl⟩
  · rw [h]; rfl
  · show (if l = [] then 0 else overdueScan l today) = 0
    rcases eq_or_ne l [] with rfl | hne
    · rfl
    · rw [if_neg hne]
      exact overdueScan_all_paid today l hl

theorem overdue_zero_when_paid_or_absent_witness :
    calculateOverdueDays
      (some [⟨1, some ("15.01.2024".data), some 1000, some ("paid".data), some ("15.01.2024".data), some 1000, none, none, none, none, none⟩])
      ⟨2024, 3, 1⟩ = 0 :=
  overdue_zero_when_paid_or_absent _ _ (Or.inr ⟨_, rfl, by decide⟩)

/-- C1 counterexample: a schedule whose first unpaid entry (number 1, planned
02.03.2024) is strictly in the future of today = 2024-03-01 and whose second
unpaid entry (planned 15.02.2024) is in the past makes the calculator return
15, not the 0 the claim asserts: the scan does not stop at the first unpaid
entry. -/
theorem overdue_scan_does_not_stop_cex :
    calculateOverdueDays
      (some [⟨1, some ("02.03.2024".data), some 1000, some ("pending".data), none, none, none, none, none, none, none⟩,
             ⟨2, some ("15.02.2024".data), some 1000, some ("pending".data), none, none, none, none, none, none, none⟩])
      ⟨2024, 3, 1⟩ = 15 ∧ (15 : Int) ≠ 0 := by
  exact ⟨by decide, by decide⟩

/-- C1 amended: the scan skips unpaid entries that are not yet overdue (or
whose planned date is unparseable) and keeps going; it returns the day count
of the first unpaid entry whose parsed planned date is strictly before
today, whatever follows it. -/
theorem overdue_first_unpaid_overdue_wins (pre post : List PaymentScheduleEntry)
    (e : PaymentScheduleEntry) (today pd : JSDate)
    (hpre : ∀ p ∈ pre, scanSkips today p)
    (he : e.status ≠ some ("paid".data))
    (hparse : parseRussianDate e.planned_date = some (some pd))
    (hlt : pd.epochDay < today.epochDay) :
    calculateOverdueDays (some (pre ++ e :: post)) today = today.epochDay - pd.epochDay := by
  have hne : pre ++ e :: post ≠ [] := by simp
  show (if pre ++ e :: post = [] then 0 else overdueScan (pre ++ e :: post) today) = _
  rw [if_neg hne, overdueScan_skip_prefix today pre (e :: post) hpre]
  simp only [overdueScan, if_neg he, hparse, if_pos hlt]

theorem overdue_first_unpaid_overdue_wins_witness :
    calculateOverdueDays
      (some ([⟨1, some ("15.01.2024".data), some 1000, some ("paid".data), none, none, none, none, none, none, none⟩] ++
             ⟨2, some ("15.02.2024".data), some 1000, some ("pending".data), none, none, none, none, none, none, none⟩ ::
             [⟨3, some ("15.04.2024".data), some 1000, some ("pending".data), none, none, none, none, none, none, none⟩]))
      ⟨2024, 3, 1⟩ = (JSDate.mk 2024 3 1).epochDay - (JSDate.mk 2024 2 15).epochDay :=
  overdue_first_unpaid_overdue_wins _ _ _ _ _
    (by intro p hp
        rcases List.mem_singleton.mp hp with rfl
        exact Or.inl rfl)
    (by decide) (by decide) (by decide)

/-- C5: if exactly one entry of the schedule is unpaid (every other entry has
status 'paid') and its planned date parses to a valid date N days strictly
before today (N > 0), the calculator returns exactly N; instantiated by the
witness on the spec's two-entry scenario with today = 2024-03-01, where it
returns 15. -/
theorem overdue_single_unpaid_exact (sched : List PaymentScheduleEntry)
    (e : PaymentScheduleEntry) (today pd : JSDate) (N : Int)
    (hmem : e ∈ sched)
    (hunpaid : e.status ≠ some ("paid".data))
    (hothers : ∀ p ∈ sched, p ≠ e → p.status = some ("paid".data))
    (hparse : parseRussianDate e.planned_date = some (some pd))
    (hN : today.epochDay - pd.epochDay = N)
    (hpos : 0 < N) :
    calculateOverdueDays (some sched) today = N := by
  have hlt : pd.epochDay < today.epochDay := by omega
  have key : ∀ l : List PaymentScheduleEntry, e ∈ l →
      (∀ p ∈ l, p ≠ e → p.status = some ("paid".data)) →
      overdueScan l today = today.epochDay - pd.epochDay := by
    intro l
    induction l with
    | nil => intro h; exact absurd h (List.not_mem_nil e)
    | cons p t ih =>
      intro hm ho
      by_cases hpe : p = e
      · subst hpe
        simp only [overdueScan, if_neg hunpaid, hparse, if_pos hlt]
      · have hpaid := ho p (List.mem_cons_self p t) hpe
        have hmt : e ∈ t := by
          rcases List.mem_cons.mp hm with rfl | hmt
          · exact absurd rfl hpe
          · exact hmt
        simp only [overdueScan, if_pos hpaid]
        exact ih hmt fun q hq hqe => ho q (List.mem_cons_of_mem p hq) hqe
  have hne : sched ≠ [] := by
    intro h; rw [h] at hmem; exact List.not_mem_nil e hmem
  show (if sched = [] then 0 else overdueScan sched today) = N
  rw [if_neg hne, key sched hmem hothers, hN]

theorem overdue_single_unpaid_exact_witness :
    calculateOverdueDays
      (some [⟨1, some ("15.01.2024".data), some 1000, some ("paid".data), some ("15.01.2024".data), some 1000, none, none, none, none, none⟩,
             ⟨2, some ("15.02.2024".data), some 1000, some ("pending".data), none, none, none, none, none, none, none⟩])
      ⟨2024, 3, 1⟩ = 15 :=
  overdue_single_unpaid_exact _
    ⟨2, some ("15.02.2024".data), some 1000, some ("pending".data), none, none, none, none, none, none, none⟩
    ⟨2024, 3, 1⟩ ⟨2024, 2, 15⟩ 15
    (by decide) (by decide) (by decide) (by decide) (by decide) (by decide)

theorem parseRussianDate_some (s : List Char) :
    parseRussianDate (some s) =
      (if s = [] then none
       else if s.contains '-' then some (jsDateFromString s)
       else match splitOnChar '.' s with
         | [p0, p1, p2] =>
           some (jsDateYMD (jsParseInt p2) ((jsParseInt p1).map (fun x => x - 1)) (jsParseInt p0))
         | _ => none) := rfl

theorem jsDateYMD_day_nan (y m : Option Int) : jsDateYMD y m none = none := by
  cases y <;> cases m <;> rfl

/-- C2 counterexample: the input "a.b.c" splits into three dot-separated
parts whose numeric parsing fails, and the parser returns the JS Invalid
Date (`some none`) — neither null nor a valid calendar date, refuting the
claim that every input yields a valid date or the null sentinel. -/
theorem parseRussianDate_invalid_sentinel_cex :
    parseRussianDate (some ("a.b.c".data)) = some none ∧
    ¬ (parseRussianDate (some ("a.b.c".data)) = none ∨
       ∃ d : JSDate, parseRussianDate (some ("a.b.c".data)) = some (some d)) := by
  have h : parseRussianDate (some ("a.b.c".data)) = some none := by decide
  refine ⟨h, ?_⟩
  rw [h]
  simp

/-- C2 amended: the parser is total and never throws, but its range has
three values, not two: missing/empty input and non-dash input that does not
split into exactly three dot-separated parts yield null; a three-part
dot-separated input whose day part fails numeric parsing yields the JS
Invalid-Date sentinel rather than null (dash-containing input is delegated
to the JS Date string constructor and can likewise yield that sentinel). -/
theorem parseRussianDate_total_shape :
    parseRussianDate none = none ∧
    parseRussianDate (some []) = none ∧
    (∀ s : List Char, s ≠ [] → s.contains '-' = false →
        (splitOnChar '.' s).length ≠ 3 → parseRussianDate (some s) = none) ∧
    (∀ s p0 p1 p2 : List Char, s ≠ [] → s.contains '-' = false →
        splitOnChar '.' s = [p0, p1, p2] → jsParseInt p0 = none →
        parseRussianDate (some s) = some none) := by
  refine ⟨rfl, rfl, ?_, ?_⟩
  · intro s hne hnd hlen
    rw [parseRussianDate_some, if_neg hne, if_neg (by rw [hnd]; decide)]
    rcases hsp : splitOnChar '.' s with _ | ⟨a, _ | ⟨b, _ | ⟨c, _ | ⟨d, t⟩⟩⟩⟩
    · rfl
    · rfl
    · rfl
    · exact absurd (by rw [hsp]; rfl) hlen
    · rfl
  · intro s p0 p1 p2 hne hnd hsp h0
    rw [parseRussianDate_some, if_neg hne, if_neg (by rw [hnd]; decide), hsp]
    simp only [h0, jsDateYMD_day_nan]

theorem parseRussianDate_total_shape_witness :
    parseRussianDate (some ("a.b.c".data)) = some none ∧
    parseRussianDate (some ("15/02/2024".data)) = none :=
  ⟨parseRussianDate_total_shape.2.2.2 ("a.b.c".data) ("a".data) ("b".data) ("c".data)
      (by decide) (by decide) (by decide) (by decide),
   parseRussianDate_total_shape.2.2.1 ("15/02/2024".data) (by decide) (by decide) (by decide)⟩

theorem applyField_overdue {α : Type} (v : Option α) (set : SaleRow → α → SaleRow)
    (hset : ∀ r x, (set r x).overdue_days = r.overdue_days) (s : SaleRow × Bool) :
    (applyField v set s).1.overdue_days = s.1.overdue_days := by
  cases v <;> simp [applyField, hset]

theorem applyField_psched {α : Type} (v : Option α) (set : SaleRow → α → SaleRow)
    (hset : ∀ r x, (set r x).payment_schedule = r.payment_schedule) (s : SaleRow × Bool) :
    (applyField v set s).1.payment_schedule = s.1.payment_schedule := by
  cases v <;> simp [applyField, hset]

theorem applyField_snd_true {α : Type} (v : Option α) (set : SaleRow → α → SaleRow)
    (s : SaleRow × Bool) (h : s.2 = true) : (applyField v set s).2 = true := by
  cases v <;> simp [applyField, h]

theorem updatePre_overdue (u : UpdateClientSale) (s : SaleRow × Bool) :
    (updatePre u s).1.overdue_days = s.1.overdue_days := by
  unfold updatePre
  iterate 11 refine (applyField_overdue _ _ (by intro r x; exact rfl) _).trans ?_
  rfl

theorem updatePost_overdue (u : UpdateClientSale) (s : SaleRow × Bool) :
    (updatePost u s).1.overdue_days = s.1.overdue_days := by
  unfold updatePost
  iterate 14 refine (applyField_overdue _ _ (by intro r x; exact rfl) _).trans ?_
  rfl

theorem updatePost_psched (u : UpdateClientSale) (s : SaleRow × Bool) :
    (updatePost u s).1.payment_schedule = s.1.payment_schedule := by
  unfold updatePost
  iterate 14 refine (applyField_psched _ _ (by intro r x; exact rfl) _).trans ?_
  rfl

theorem updatePost_keeps_true (u : UpdateClientSale) (s : SaleRow × Bool) (h : s.2 = true) :
    (updatePost u s).2 = true := by
  unfold updatePost
  iterate 14 refine applyField_snd_true _ _ _ ?_
  exact h

/-- C4: an update payload carrying a `payment_schedule` field (possibly
null) stores that schedule and, in the same statement, recomputes and
persists `overdue_days` from it with `calculateOverdueDays`; the write
really happens. -/
theorem updateSale_recomputes_overdue_days (row : SaleRow) (u : UpdateClientSale) (today : JSDate)
    (ps : Option (List PaymentScheduleEntry)) (h : u.payment_schedule = some ps) :
    (updateSaleRow row u today).1.overdue_days = calculateOverdueDays ps today ∧
    (updateSaleRow row u today).1.payment_schedule = ps ∧
    (updateSaleRow row u today).2 = true := by
  have h1 : (updateSched u today (updatePre u (row, false))).1.overdue_days
      = calculateOverdueDays ps today := by
    unfold updateSched
    rw [h]
    rfl
  have h2 : (updateSched u today (updatePre u (row, false))).1.payment_schedule = ps := by
    unfold updateSched
    rw [h]
    rfl
  have h3 : (updateSched u today (updatePre u (row, false))).2 = true := by
    unfold updateSched
    rw [h]
    rfl
  refine ⟨?_, ?_, ?_⟩
  · rw [updateSaleRow, updatePost_overdue]
    exact h1
  · rw [updateSaleRow, updatePost_psched]
    exact h2
  · rw [updateSaleRow]
    exact updatePost_keeps_true _ _ h3

/-- A concrete stored row used to instantiate the update-operation
theorems. -/
def sampleRow : SaleRow :=
  ⟨1001, 2002, none, some 5, "+79990000000".data, some ("Ivan".data), none, none,
   "2024-01-15".data, 50000, true, none, none, some 5, some 1, none, none, false,
   SaleStatus.active, false, false, none, none, false, none, none, 0⟩

/-- A concrete pending installment used to instantiate the update-operation
theorems. -/
def sampleEntry : PaymentScheduleEntry :=
  ⟨1, some ("15.02.2024".data), some 1000, some ("pending".data),
   none, none, none, none, none, none, none⟩

/-- A payload that only replaces the payment schedule. -/
def schedOnlyUpdate : UpdateClientSale :=
  { emptyUpdate with payment_schedule := some (some [sampleEntry]) }

theorem updateSale_recomputes_overdue_days_witness :
    (updateSaleRow sampleRow schedOnlyUpdate ⟨2024, 3, 1⟩).1.overdue_days =
      calculateOverdueDays (some [sampleEntry]) ⟨2024, 3, 1⟩ ∧
    (updateSaleRow sampleRow schedOnlyUpdate ⟨2024, 3, 1⟩).1.payment_schedule =
      some [sampleEntry] ∧
    (updateSaleRow sampleRow schedOnlyUpdate ⟨2024, 3, 1⟩).2 = true :=
  updateSale_recomputes_overdue_days sampleRow schedOnlyUpdate ⟨2024, 3, 1⟩ (some [sampleEntry]) rfl

/-- C10: when the payload has no `payment_schedule` field the stored
`overdue_days` is left untouched, and a payload with no recognized field at
all builds no SET clause — the row is returned unchanged and no write is
issued. -/
theorem updateSale_frame_no_schedule (row : SaleRow) (u : UpdateClientSale) (today : JSDate) :
    (u.payment_schedule = none → (updateSaleRow row u today).1.overdue_days = row.overdue_days) ∧
    (u = emptyUpdate → updateSaleRow row u today = (row, false)) := by
  constructor
  · intro h
    rw [updateSaleRow, updatePost_overdue]
    have hs : updateSched u today (updatePre u (row, false)) = updatePre u (row, false) := by
      unfold updateSched
      rw [h]
      rfl
    rw [hs, updatePre_overdue]
  · intro h
    subst h
    rfl

/-- A payload that only edits the free-text comment. -/
def commentOnlyUpdate : UpdateClientSale :=
  { emptyUpdate with comments := some (some ("note".data)) }

theorem updateSale_frame_no_schedule_witness :
    (updateSaleRow sampleRow commentOnlyUpdate ⟨2024, 3, 1⟩).1.overdue_days =
      sampleRow.overdue_days ∧
    updateSaleRow sampleRow emptyUpdate ⟨2024, 3, 1⟩ = (sampleRow, false) :=
  ⟨(updateSale_frame_no_schedule sampleRow commentOnlyUpdate ⟨2024, 3, 1⟩).1 rfl,
   (updateSale_frame_no_schedule sampleRow emptyUpdate ⟨2024, 3, 1⟩).2 rfl⟩

/-- C7: regenerating a non-empty schedule succeeds, regenerating its result
again (with the same formatted purchase date) succeeds, and the second pass
assigns every entry exactly the planned date the first pass assigned — the
planned date depends only on the preserved `payment_number` and the purchase
date. -/
theorem regenerate_idempotent (purchaseDateStr : List Char) (sched : List PaymentScheduleEntry)
    (h : sched ≠ []) :
    handleRegenerateSchedule purchaseDateStr sched =
      some (sched.map (regenerateEntry purchaseDateStr)) ∧
    handleRegenerateSchedule purchaseDateStr (sched.map (regenerateEntry purchaseDateStr)) =
      some ((sched.map (regenerateEntry purchaseDateStr)).map (regenerateEntry purchaseDateStr)) ∧
    ((sched.map (regenerateEntry purchaseDateStr)).map (regenerateEntry purchaseDateStr)).map
        PaymentScheduleEntry.planned_date =
      (sched.map (regenerateEntry purchaseDateStr)).map PaymentScheduleEntry.planned_date := by
  refine ⟨?_, ?_, ?_⟩
  · rw [handleRegenerateSchedule, if_neg h]
  · rw [handleRegenerateSchedule, if_neg (by simp [h])]
  · clear h
    induction sched with
    | nil => rfl
    | cons p t ih =>
      simp only [List.map_cons]
      rw [show (regenerateEntry purchaseDateStr (regenerateEntry purchaseDateStr p)).planned_date
            = (regenerateEntry purchaseDateStr p).planned_date from rfl, ih]

theorem regenerate_idempotent_witness :
    handleRegenerateSchedule ("15.01.2024".data) [sampleEntry] =
      some ([sampleEntry].map (regenerateEntry ("15.01.2024".data))) ∧
    handleRegenerateSchedule ("15.01.2024".data) ([sampleEntry].map (regenerateEntry ("15.01.2024".data))) =
      some (([sampleEntry].map (regenerateEntry ("15.01.2024".data))).map (regenerateEntry ("15.01.2024".data))) ∧
    (([sampleEntry].map (regenerateEntry ("15.01.2024".data))).map (regenerateEntry ("15.01.2024".data))).map
        PaymentScheduleEntry.planned_date =
      ([sampleEntry].map (regenerateEntry ("15.01.2024".data))).map PaymentScheduleEntry.planned_date :=
  regenerate_idempotent ("15.01.2024".data) [sampleEntry] (by decide)

/-- C8 counterexample: a schedule entry whose `description` is present but
is the empty string fails the regenerator's truthiness guard, so the emitted
entry drops the field instead of passing it through unchanged. -/
theorem regenerate_drops_empty_string_field_cex :
    (regenerateEntry ("15.01.2024".data)
        ⟨2, some ("15.02.2024".data), some 500, some ("pending".data),
         none, none, none, none, none, none, some []⟩).description = none ∧
    some ([] : List Char) ≠ (none : Option (List Char)) := by
  exact ⟨rfl, by decide⟩

/-- C8 amended: regeneration keeps `payment_number`, recomputes only
`planned_date` (from the purchase date and `payment_number - 1` months), and
passes `planned_amount` and the `!== undefined`-guarded numeric fields
(`actual_amount`, `difference`, legacy `amount`) through unchanged, zero
included; the truthiness-guarded string fields (`status`, `actual_date`,
`discrepancy`, legacy `date`, `description`) are passed through unchanged
when present and non-empty, but a present-and-empty string is dropped. -/
theorem regenerate_frame_amended (purchaseDateStr : List Char) (p : PaymentScheduleEntry) :
    (regenerateEntry purchaseDateStr p).payment_number = p.payment_number ∧
    (regenerateEntry purchaseDateStr p).planned_date =
      some (addMonthsToDate purchaseDateStr (p.payment_number - 1)) ∧
    (regenerateEntry purchaseDateStr p).planned_amount = p.planned_amount ∧
    (regenerateEntry purchaseDateStr p).actual_amount = p.actual_amount ∧
    (regenerateEntry purchaseDateStr p).difference = p.difference ∧
    (regenerateEntry purchaseDateStr p).amount = p.amount ∧
    (∀ s, s ≠ [] → p.status = some s → (regenerateEntry purchaseDateStr p).status = some s) ∧
    (∀ s, s ≠ [] → p.actual_date = some s → (regenerateEntry purchaseDateStr p).actual_date = some s) ∧
    (∀ s, s ≠ [] → p.discrepancy = some s → (regenerateEntry purchaseDateStr p).discrepancy = some s) ∧
    (∀ s, s ≠ [] → p.date = some s → (regenerateEntry purchaseDateStr p).date = some s) ∧
    (∀ s, s ≠ [] → p.description = some s → (regenerateEntry purchaseDateStr p).description = some s) := by
  refine ⟨rfl, rfl, rfl, rfl, rfl, rfl, ?_, ?_, ?_, ?_, ?_⟩ <;>
    (intro s hs hp
     show orNullStr _ = some s
     rw [hp]
     simp [orNullStr, hs])

theorem regenerate_frame_amended_witness :
    (regenerateEntry ("15.01.2024".data) sampleEntry).payment_number = sampleEntry.payment_number ∧
    (regenerateEntry ("15.01.2024".data) sampleEntry).planned_amount = sampleEntry.planned_amount ∧
    (regenerateEntry ("15.01.2024".data) sampleEntry).status = some ("pending".data) :=
  ⟨(regenerate_frame_amended ("15.01.2024".data) sampleEntry).1,
   (regenerate_frame_amended ("15.01.2024".data) sampleEntry).2.2.1,
   (regenerate_frame_amended ("15.01.2024".data) sampleEntry).2.2.2.2.2.2.1
     ("pending".data) (by decide) rfl⟩

theorem actualStep_fst (tm ty : Int) (acc : ℚ × ℚ) (p : PaymentScheduleEntry) :
    (actualStep tm ty acc p).1 = acc.1 := by
  unfold actualStep
  rcases jsActualDate p with _ | ⟨_ | ad⟩
  · rfl
  · rfl
  · dsimp only
    split <;> rfl

theorem plannedStep_fst (tm ty : Int) (acc : ℚ × ℚ) (p : PaymentScheduleEntry) :
    (plannedStep tm ty acc p).1 =
      acc.1 + (if plannedInTarget tm ty p then p.planned_amount.getD 0 else 0) := by
  unfold plannedStep plannedInTarget
  rcases parseRussianDate p.planned_date with _ | ⟨_ | pd⟩
  · simp
  · simp
  · dsimp only
    by_cases hc : pd.month = tm ∧ pd.year = ty
    · rw [if_pos hc, if_pos (by simp [hc.1, hc.2])]
    · rw [if_neg hc, if_neg ?_, add_zero]
      simp only [Bool.and_eq_true, beq_iff_eq, decide_eq_true_eq, not_and]
      intro h1 h2
      exact hc ⟨h1, h2⟩

theorem foldl_entryStep_fst (tm ty : Int) (sched : List PaymentScheduleEntry) (acc : ℚ × ℚ) :
    (sched.foldl (analyticsEntryStep tm ty) acc).1 =
      acc.1 + ((sched.filter (plannedInTarget tm ty)).map (fun p => p.planned_amount.getD 0)).sum := by
  induction sched generalizing acc with
  | nil => simp
  | cons p t ih =>
    rw [List.foldl_cons, ih]
    have hstep : (analyticsEntryStep tm ty acc p).1 =
        acc.1 + (if plannedInTarget tm ty p then p.planned_amount.getD 0 else 0) := by
      rw [analyticsEntryStep, actualStep_fst, plannedStep_fst]
    rw [hstep]
    by_cases hp : plannedInTarget tm ty p
    · simp only [List.filter_cons, hp, if_pos hp, ite_true, List.map_cons, List.sum_cons]
      ring
    · simp only [List.filter_cons, hp, if_neg hp, ite_false, add_zero, Bool.false_eq_true]

/-- C3: the implementation's `totalPlanned` for a target (month, year)
equals the flat sum of `planned_amount` over all schedule entries, across
all sales, whose parsed `planned_date` is a valid date in that (month,
year); sales without a schedule and entries with unparseable dates
contribute nothing. -/
theorem analytics_totalPlanned_eq_spec (sales : List (Option (List PaymentScheduleEntry)))
    (tm ty : Int) :
    (analyticsTotals sales tm ty).1 = totalPlannedSpec sales tm ty := by
  suffices h : ∀ acc : ℚ × ℚ,
      ((sales.foldl
        (fun acc osched =>
          match osched with
          | none => acc
          | some sched => sched.foldl (analyticsEntryStep tm ty) acc) acc)).1 =
        acc.1 + totalPlannedSpec sales tm ty by
    have := h (0, 0)
    rw [analyticsTotals]
    rw [this]
    ring
  induction sales with
  | nil =>
    intro acc
    simp [totalPlannedSpec]
  | cons os t ih =>
    intro acc
    rw [List.foldl_cons]
    cases os with
    | none =>
      rw [ih]
      have : totalPlannedSpec (none :: t) tm ty = totalPlannedSpec t tm ty := by
        simp [totalPlannedSpec]
      rw [this]
    | some sched =>
      rw [ih, foldl_entryStep_fst]
      have : totalPlannedSpec (some sched :: t) tm ty =
          ((sched.filter (plannedInTarget tm ty)).map (fun p => p.planned_amount.getD 0)).sum +
            totalPlannedSpec t tm ty := by
        simp [totalPlannedSpec]
      rw [this]
      ring

theorem digitVal_digitChar (k : Nat) (h : k < 10) : digitVal (digitChar k) = k := by
  interval_cases k <;> decide

theorem isDigitChar_digitChar (k : Nat) (h : k < 10) : isDigitChar (digitChar k) = true := by
  interval_cases k <;> decide

theorem digit_ne (c d : Char) (h : isDigitChar c = true) (hd : isDigitChar d = false) : c ≠ d := by
  intro he
  rw [he, hd] at h
  cases h

theorem parseDigitsAcc_append (l1 l2 : List Char) (acc : Nat) :
    parseDigitsAcc acc (l1 ++ l2) = parseDigitsAcc (parseDigitsAcc acc l1) l2 := by
  induction l1 generalizing acc with
  | nil => rfl
  | cons c t ih =>
    show parseDigitsAcc (acc * 10 + digitVal c) (t ++ l2) = _
    rw [ih]
    rfl

theorem natDigitsAux_zero_fuel (n : Nat) : natDigitsAux 0 n = [] := rfl

theorem natDigitsAux_succ (f n : Nat) :
    natDigitsAux (f + 1) n =
      (if n = 0 then [] else natDigitsAux f (n / 10) ++ [digitChar (n % 10)]) := rfl

theorem parseDigitsAcc_nil (acc : Nat) : parseDigitsAcc acc [] = acc := rfl

theorem parseDigitsAcc_cons (acc : Nat) (c : Char) (rest : List Char) :
    parseDigitsAcc acc (c :: rest) = parseDigitsAcc (acc * 10 + digitVal c) rest := rfl

theorem natDigitsAux_all_digits (fuel : Nat) : ∀ n, n ≤ fuel →
    (natDigitsAux fuel n).all isDigitChar = true := by
  induction fuel with
  | zero => intro n _; rfl
  | succ f ih =>
    intro n hn
    rw [natDigitsAux_succ]
    by_cases h0 : n = 0
    · rw [if_pos h0]; rfl
    · rw [if_neg h0, List.all_append]
      have h10 : n / 10 ≤ f := by omega
      rw [ih (n / 10) h10]
      have hlt : n % 10 < 10 := by omega
      simp [isDigitChar_digitChar (n % 10) hlt]

theorem parseDigitsAcc_natDigitsAux (fuel : Nat) : ∀ n acc, n ≤ fuel →
    parseDigitsAcc acc (natDigitsAux fuel n) =
      acc * 10 ^ (natDigitsAux fuel n).length + n := by
  induction fuel with
  | zero =>
    intro n acc hn
    have hn0 : n = 0 := by omega
    subst hn0
    rw [natDigitsAux_zero_fuel, parseDigitsAcc_nil]
    simp
  | succ f ih =>
    intro n acc hn
    rw [natDigitsAux_succ]
    by_cases h0 : n = 0
    · subst h0
      rw [if_pos rfl, parseDigitsAcc_nil]
      simp
    · rw [if_neg h0, parseDigitsAcc_append]
      have h10 : n / 10 ≤ f := by omega
      rw [ih (n / 10) acc h10]
      have hlt : n % 10 < 10 := by omega
      rw [parseDigitsAcc_cons, parseDigitsAcc_nil, digitVal_digitChar (n % 10) hlt,
        List.length_append, List.length_singleton, pow_succ]
      have hdm := Nat.div_add_mod n 10
      ring_nf
      omega

theorem natDigitsAux_ne_nil (fuel n : Nat) (h1 : 1 ≤ n) (h2 : n ≤ fuel) :
    natDigitsAux fuel n ≠ [] := by
  cases fuel with
  | zero => omega
  | succ f =>
    rw [natDigitsAux, if_neg (by omega)]
    simp

theorem natToChars_all_digits (n : Nat) : (natToChars n).all isDigitChar = true := by
  rw [natToChars]
  by_cases h : n = 0
  · rw [if_pos h]; rfl
  · rw [if_neg h]
    exact natDigitsAux_all_digits n n (le_refl n)

theorem natToChars_ne_nil (n : Nat) : natToChars n ≠ [] := by
  rw [natToChars]
  by_cases h : n = 0
  · rw [if_pos h]; simp
  · rw [if_neg h]
    exact natDigitsAux_ne_nil n n (by omega) (le_refl n)

theorem parseDigitsAcc_natToChars (n : Nat) : parseDigitsAcc 0 (natToChars n) = n := by
  rw [natToChars]
  by_cases h : n = 0
  · rw [if_pos h, h]; rfl
  · rw [if_neg h, parseDigitsAcc_natDigitsAux n n 0 (le_refl n)]
    simp

theorem takeWhile_all_digits (l : List Char) (h : l.all isDigitChar = true) :
    l.takeWhile isDigitChar = l := by
  induction l with
  | nil => rfl
  | cons c t ih =>
    rw [List.all_cons, Bool.and_eq_true] at h
    rw [List.takeWhile_cons, if_pos h.1, ih h.2]

theorem all_digits_not_mem (l : List Char) (a : Char) (hl : l.all isDigitChar = true)
    (ha : isDigitChar a = false) : a ∉ l := by
  intro hmem
  have hx := List.all_eq_true.mp hl a hmem
  rw [ha] at hx
  cases hx

theorem contains_eq_false_of_not_mem (l : List Char) (a : Char) (h : a ∉ l) :
    l.contains a = false := by
  simpa using h

theorem jsParseIntCore_single (c : Char) :
    jsParseIntCore [c] =
      (if [c].takeWhile isDigitChar = [] then none
       else some (parseDigitsAcc 0 ([c].takeWhile isDigitChar))) := rfl

theorem jsParseIntCore_two (c0 c1 : Char) (rest : List Char) :
    jsParseIntCore (c0 :: c1 :: rest) =
      (if c0 = '0' ∧ (c1 = 'x' ∨ c1 = 'X') then
        (if rest.takeWhile isHexDigitChar = [] then none
         else some (parseHexAcc 0 (rest.takeWhile isHexDigitChar)))
       else
        (if (c0 :: c1 :: rest).takeWhile isDigitChar = [] then none
         else some (parseDigitsAcc 0 ((c0 :: c1 :: rest).takeWhile isDigitChar)))) := rfl

theorem jsParseIntCore_digits (l : List Char) (hne : l ≠ []) (hd : l.all isDigitChar = true) :
    jsParseIntCore l = some (parseDigitsAcc 0 l) := by
  rcases l with _ | ⟨c0, _ | ⟨c1, rest⟩⟩
  · exact absurd rfl hne
  · rw [jsParseIntCore_single, takeWhile_all_digits [c0] hd, if_neg (by simp)]
  · have h1 : isDigitChar c1 = true := by
      rw [List.all_cons, Bool.and_eq_true, List.all_cons, Bool.and_eq_true] at hd
      exact hd.2.1
    rw [jsParseIntCore_two,
      if_neg (fun hx => absurd h1 (by rcases hx.2 with rfl | rfl <;> decide)),
      takeWhile_all_digits _ hd, if_neg (by simp)]

theorem digit_not_space (c : Char) (h : isDigitChar c = true) : isJsSpace c = false := by
  rcases hb : isJsSpace c
  · rfl
  · exfalso
    simp only [isJsSpace, decide_eq_true_eq] at hb
    rcases hb with rfl | rfl | rfl | rfl | rfl | rfl <;> exact absurd h (by decide)

theorem jsParseInt_eq (s : List Char) :
    jsParseInt s =
      (match s.dropWhile isJsSpace with
       | [] => none
       | c :: rest =>
         if c = '-' then (jsParseIntCore rest).map (fun n => -(n : Int))
         else if c = '+' then (jsParseIntCore rest).map (fun n => (n : Int))
         else (jsParseIntCore (c :: rest)).map (fun n => (n : Int))) := rfl

theorem jsParseInt_digits (l : List Char) (hne : l ≠ []) (hd : l.all isDigitChar = true) :
    jsParseInt l = some ((parseDigitsAcc 0 l : Nat) : Int) := by
  rcases l with _ | ⟨c, t⟩
  · exact absurd rfl hne
  · have hc : isDigitChar c = true := by
      rw [List.all_cons, Bool.and_eq_true] at hd
      exact hd.1
    have hdrop : (c :: t).dropWhile isJsSpace = c :: t := by
      rw [List.dropWhile_cons, digit_not_space c hc]
      simp
    rw [jsParseInt_eq, hdrop]
    show (if c = '-' then (jsParseIntCore t).map (fun n => -(n : Int))
          else if c = '+' then (jsParseIntCore t).map (fun n => (n : Int))
          else (jsParseIntCore (c :: t)).map (fun n => (n : Int))) = _
    rw [if_neg (digit_ne c '-' hc (by decide)), if_neg (digit_ne c '+' hc (by decide)),
      jsParseIntCore_digits (c :: t) (by simp) hd]
    rfl

theorem splitOnChar_cons_eq (sep c : Char) (rest : List Char) :
    splitOnChar sep (c :: rest) =
      (if c = sep then [] :: splitOnChar sep rest
       else match splitOnChar sep rest with
         | [] => [[c]]
         | part :: parts => (c :: part) :: parts) := rfl

theorem splitOnChar_append_sep (sep : Char) (l1 l2 : List Char) (h : sep ∉ l1) :
    splitOnChar sep (l1 ++ sep :: l2) = l1 :: splitOnChar sep l2 := by
  induction l1 with
  | nil => rw [List.nil_append, splitOnChar_cons_eq, if_pos rfl]
  | cons c t ih =>
    have hc : ¬ c = sep := fun he => h (he ▸ List.mem_cons_self c t)
    rw [List.cons_append, splitOnChar_cons_eq, if_neg hc,
      ih (fun hm => h (List.mem_cons_of_mem c hm))]

theorem splitOnChar_no_sep (sep : Char) (l : List Char) (h : sep ∉ l) :
    splitOnChar sep l = [l] := by
  induction l with
  | nil => rfl
  | cons c t ih =>
    have hc : ¬ c = sep := fun he => h (he ▸ List.mem_cons_self c t)
    rw [splitOnChar_cons_eq, if_neg hc, ih (fun hm => h (List.mem_cons_of_mem c hm))]

theorem daysInMonth_bounds (y m : Int) : 28 ≤ daysInMonth y m ∧ daysInMonth y m ≤ 31 := by
  unfold daysInMonth
  split_ifs <;> omega

theorem daysFromCivil_bounds (y m d : Int) (hy1 : 0 ≤ y) (hy2 : y ≤ 10000)
    (hd1 : 1 ≤ d) (hd2 : d ≤ 31) :
    -800000 ≤ daysFromCivil y m d ∧ daysFromCivil y m d ≤ 3000000 := by
  dsimp only [daysFromCivil]
  split_ifs <;> omega

theorem normDayAux_succ (fuel : Nat) (y m d : Int) :
    normDayAux (fuel + 1) y m d =
      (if d < 1 then
        normDayAux fuel (if m = 1 then y - 1 else y) (if m = 1 then 12 else m - 1)
          (d + daysInMonth (if m = 1 then y - 1 else y) (if m = 1 then 12 else m - 1))
      else if daysInMonth y m < d then
        normDayAux fuel (if m = 12 then y + 1 else y) (if m = 12 then 1 else m + 1)
          (d - daysInMonth y m)
      else ⟨y, m, d⟩) := rfl

theorem normDayAux_in_range (fuel : Nat) (y m d : Int) (h1 : 1 ≤ d) (h2 : d ≤ daysInMonth y m) :
    normDayAux (fuel + 1) y m d = ⟨y, m, d⟩ := by
  rw [normDayAux_succ, if_neg (by omega), if_neg (by omega)]

theorem makeDay_valid (y m d : Int) (hy1 : 100 ≤ y) (hy2 : y ≤ 9999)
    (hm1 : 1 ≤ m) (hm2 : m ≤ 12) (hd1 : 1 ≤ d) (hd2 : d ≤ daysInMonth y m) :
    makeDay y (m - 1) d = some ⟨y, m, d⟩ := by
  have hd31 : d ≤ 31 := by
    have := daysInMonth_bounds y m
    omega
  dsimp only [makeDay]
  rw [show y + (m - 1) / 12 = y by omega, show (m - 1) % 12 + 1 = m by omega,
    show d.natAbs + 13 = (d.natAbs + 12) + 1 from rfl,
    normDayAux_in_range (d.natAbs + 12) y m d hd1 hd2]
  have hb := daysFromCivil_bounds y m d (by omega) (by omega) hd1 hd31
  rw [if_neg ?_]
  show ¬(daysFromCivil y m d < -100000000 ∨ 100000000 < daysFromCivil y m d)
  omega

theorem jsDateYMD_valid (y m d : Int) (hy1 : 100 ≤ y) (hy2 : y ≤ 9999)
    (hm1 : 1 ≤ m) (hm2 : m ≤ 12) (hd1 : 1 ≤ d) (hd2 : d ≤ daysInMonth y m) :
    jsDateYMD (some y) (some (m - 1)) (some d) = some ⟨y, m, d⟩ := by
  show makeDay (if 0 ≤ y ∧ y ≤ 99 then y + 1900 else y) (m - 1) d = some ⟨y, m, d⟩
  rw [if_neg (by omega)]
  exact makeDay_valid y m d hy1 hy2 hm1 hm2 hd1 hd2

theorem intToChars_nonneg (i : Int) (h : 0 ≤ i) : intToChars i = natToChars i.natAbs := by
  rw [intToChars, if_neg (by omega)]

theorem padStart2_all_digits (l : List Char) (h : l.all isDigitChar = true) :
    (padStart2 l).all isDigitChar = true := by
  rw [padStart2, List.all_append, h, Bool.and_true]
  rw [List.all_eq_true]
  intro x hx
  rw [List.eq_of_mem_replicate hx]
  decide

theorem padStart2_ne_nil (l : List Char) (h : l ≠ []) : padStart2 l ≠ [] := by
  rw [padStart2]
  simp [h]

theorem parseDigitsAcc_padStart2 (l : List Char) :
    parseDigitsAcc 0 (padStart2 l) = parseDigitsAcc 0 l := by
  rw [padStart2]
  generalize 2 - l.length = k
  induction k with
  | zero => rw [List.replicate_zero, List.nil_append]
  | succ j ih =>
    rw [List.replicate_succ, List.cons_append, parseDigitsAcc_cons,
      show (0 * 10 + digitVal '0' : Nat) = 0 by decide, ih]

theorem jsParseInt_natToChars (k : Nat) : jsParseInt (natToChars k) = some (k : Int) := by
  rw [jsParseInt_digits _ (natToChars_ne_nil k) (natToChars_all_digits k),
    parseDigitsAcc_natToChars]

theorem jsParseInt_padded_nat (k : Nat) :
    jsParseInt (padStart2 (natToChars k)) = some (k : Int) := by
  rw [jsParseInt_digits _ (padStart2_ne_nil _ (natToChars_ne_nil k))
      (padStart2_all_digits _ (natToChars_all_digits k)),
    parseDigitsAcc_padStart2, parseDigitsAcc_natToChars]

/-- C6: for every valid calendar date with a four-digit year — exactly the
dates expressible as `DD.MM.YYYY` strings — the zero-padded localized
formatting of the date parses back to the same calendar date.  Since parsing
a valid `DD.MM.YYYY` string yields this date and formatting it reproduces
the canonical string, format-then-reparse is the identity on such dates. -/
theorem parse_format_roundtrip (y m d : Int)
    (hy1 : 1000 ≤ y) (hy2 : y ≤ 9999) (hm1 : 1 ≤ m) (hm2 : m ≤ 12)
    (hd1 : 1 ≤ d) (hd2 : d ≤ daysInMonth y m) :
    parseRussianDate (some (formatDayMonthYear (some ⟨y, m, d⟩))) = some (some ⟨y, m, d⟩) := by
  have hd0 : (0 : Int) ≤ d := by omega
  have hm0 : (0 : Int) ≤ m := by omega
  have hy0 : (0 : Int) ≤ y := by omega
  have hDdig : (padStart2 (natToChars d.natAbs)).all isDigitChar = true :=
    padStart2_all_digits _ (natToChars_all_digits _)
  have hMdig : (padStart2 (natToChars m.natAbs)).all isDigitChar = true :=
    padStart2_all_digits _ (natToChars_all_digits _)
  have hYdig : (natToChars y.natAbs).all isDigitChar = true := natToChars_all_digits _
  have hDne : padStart2 (natToChars d.natAbs) ≠ [] := padStart2_ne_nil _ (natToChars_ne_nil _)
  have hfmt : formatDayMonthYear (some ⟨y, m, d⟩) =
      padStart2 (natToChars d.natAbs) ++
        '.' :: (padStart2 (natToChars m.natAbs) ++ '.' :: natToChars y.natAbs) := by
    show padStart2 (intToChars d) ++ '.' :: (padStart2 (intToChars m) ++ '.' :: intToChars y) = _
    rw [intToChars_nonneg d hd0, intToChars_nonneg m hm0, intToChars_nonneg y hy0]
  rw [hfmt]
  have hne : padStart2 (natToChars d.natAbs) ++
      '.' :: (padStart2 (natToChars m.natAbs) ++ '.' :: natToChars y.natAbs) ≠ [] := by
    intro h
    exact hDne (List.append_eq_nil.mp h).1
  have hnotmem : '-' ∉ padStart2 (natToChars d.natAbs) ++
      '.' :: (padStart2 (natToChars m.natAbs) ++ '.' :: natToChars y.natAbs) := by
    intro hmem
    rcases List.mem_append.mp hmem with h | h
    · exact all_digits_not_mem _ '-' hDdig (by decide) h
    · rcases List.mem_cons.mp h with h | h
      · exact absurd h (by decide)
      · rcases List.mem_append.mp h with h | h
        · exact all_digits_not_mem _ '-' hMdig (by decide) h
        · rcases List.mem_cons.mp h with h | h
          · exact absurd h (by decide)
          · exact all_digits_not_mem _ '-' hYdig (by decide) h
  have hnd : (padStart2 (natToChars d.natAbs) ++
      '.' :: (padStart2 (natToChars m.natAbs) ++ '.' :: natToChars y.natAbs)).contains '-' = false :=
    contains_eq_false_of_not_mem _ _ hnotmem
  rw [parseRussianDate_some, if_neg hne, if_neg (by rw [hnd]; decide)]
  rw [splitOnChar_append_sep '.' _ _ (all_digits_not_mem _ '.' hDdig (by decide)),
    splitOnChar_append_sep '.' _ _ (all_digits_not_mem _ '.' hMdig (by decide)),
    splitOnChar_no_sep '.' _ (all_digits_not_mem _ '.' hYdig (by decide))]
  show some (jsDateYMD (jsParseInt (natToChars y.natAbs))
      ((jsParseInt (padStart2 (natToChars m.natAbs))).map (fun x => x - 1))
      (jsParseInt (padStart2 (natToChars d.natAbs)))) = some (some ⟨y, m, d⟩)
  rw [jsParseInt_natToChars, jsParseInt_padded_nat, jsParseInt_padded_nat,
    Int.natAbs_of_nonneg hy0, Int.natAbs_of_nonneg hm0, Int.natAbs_of_nonneg hd0]
  show some (jsDateYMD (some y) (some (m - 1)) (some d)) = some (some ⟨y, m, d⟩)
  rw [jsDateYMD_valid y m d (by omega) hy2 hm1 hm2 hd1 hd2]

theorem parse_format_roundtrip_witness :
    parseRussianDate (some (formatDayMonthYear (some ⟨2024, 2, 15⟩))) =
      some (some ⟨2024, 2, 15⟩) :=
  parse_format_roundtrip 2024 2 15 (by decide) (by decide) (by decide) (by decide)
    (by decide) (by decide)
